import Mathlib

set_option autoImplicit false

/- Shallow embedding of the mend step planner and step executor
   (craftvscruft/mend: src/run.rs, src/main.rs, with the interfaces of
   src/progress.rs and src/repo.rs as parameters).  Strings are modelled
   by Lean `String` (a wrapper around `List Char`); character classes use
   the ASCII predicates of Lean as an approximation of Rust's Unicode
   `char::is_alphanumeric` / `char::is_whitespace` (all inputs appearing
   in the theorems below are ASCII). -/

/-- Char class of the shellexpand scanner, Rust `c.is_alphanumeric() || c == '_'`. -/
def isValidVarNameChar (c : Char) : Bool := c.isAlphanum || c = '_'

/-- Rust `str::trim`: drop whitespace characters from both ends. -/
def trimStr (s : String) : String :=
  String.mk (((s.data.dropWhile Char.isWhitespace).reverse.dropWhile Char.isWhitespace).reverse)

/-- Scanner of Rust `str::split_whitespace` over the character list: `acc` holds the
    characters of the current token in reverse. -/
def splitWsAux : List Char → List Char → List String
  | [], acc => if acc.isEmpty then [] else [String.mk acc.reverse]
  | c :: cs, acc =>
    if c.isWhitespace then
      if acc.isEmpty then splitWsAux cs []
      else String.mk acc.reverse :: splitWsAux cs []
    else splitWsAux cs (c :: acc)

/-- Rust `str::split_whitespace`: whitespace-delimited tokens, no empty tokens. -/
def split_whitespace (s : String) : List String := splitWsAux s.data []

/-- Digit run to a number: `some` iff the list is nonempty and all ASCII digits. -/
def parseDigits (cs : List Char) : Option Nat :=
  if cs.isEmpty then none
  else if cs.all Char.isDigit then
    some (cs.foldl (fun acc c => acc * 10 + (c.toNat - '0'.toNat)) 0)
  else none

/-- Integer numeral parsing shared by the code-side i16 parser and the claim-side
    substitution context: optional sign, then ASCII digits. -/
def parseIntRaw (s : String) : Option Int :=
  let signed : Int × List Char :=
    match s.data with
    | '+' :: cs => (1, cs)
    | '-' :: cs => (-1, cs)
    | cs => (1, cs)
  match parseDigits signed.2 with
  | none => none
  | some n => some (signed.1 * n)

/-- Rust `str::parse::<i16>`: optional sign, ASCII digits, result within the i16
    range (Rust's parse reports an overflow error outside it). -/
def parseI16 (s : String) : Option Int :=
  match parseIntRaw s with
  | none => none
  | some v => if -32768 ≤ v ∧ v ≤ 32767 then some v else none

/-- Rust `usize as i16`: keep the low 16 bits, two's complement. -/
def wrap16 (n : Nat) : Int := ((n : Int) + 32768) % 65536 - 32768

/-- Split a character list at its first closing brace (used for `$\x7b...\x7d`
    references); `none` when no closing brace exists. -/
def splitUntilRBrace : List Char → Option (List Char × List Char)
  | [] => none
  | c :: cs =>
    if c = '}' then some ([], cs)
    else
      match splitUntilRBrace cs with
      | some (pre, post) => some (c :: pre, post)
      | none => none

/-- Scanner of `shellexpand::env_with_context_no_errors` (shellexpand 3.x):
    `$$` escapes a dollar, `$\x7bname\x7d` looks up `name` (any characters up to the
    first closing brace), `$name` looks up the maximal alphanumeric/underscore run,
    a lone or dangling `$` is literal, and a failed lookup leaves the reference
    unexpanded.  The fuel argument only drives structural recursion; one unit is
    spent per consumed character, so `fuel = length` always suffices. -/
def expandAux (ctx : String → Option String) : Nat → List Char → List Char
  | 0, l => l
  | _ + 1, [] => []
  | fuel + 1, c :: rest =>
    if c = '$' then
      match rest with
      | [] => ['$']
      | c2 :: rest2 =>
        if c2 = '$' then '$' :: expandAux ctx fuel rest2
        else if c2 = '{' then
          match splitUntilRBrace rest2 with
          | some (nm, rest3) =>
            match ctx (String.mk nm) with
            | some v => v.data ++ expandAux ctx fuel rest3
            | none => '$' :: '{' :: (nm ++ '}' :: expandAux ctx fuel rest3)
          | none => '$' :: '{' :: expandAux ctx fuel rest2
        else if isValidVarNameChar c2 then
          let nm := c2 :: rest2.takeWhile isValidVarNameChar
          let rest3 := rest2.dropWhile isValidVarNameChar
          match ctx (String.mk nm) with
          | some v => v.data ++ expandAux ctx fuel rest3
          | none => '$' :: (nm ++ expandAux ctx fuel rest3)
        else '$' :: expandAux ctx fuel (c2 :: rest2)
    else c :: expandAux ctx fuel rest

/-- Model of `shellexpand::env_with_context_no_errors` on a whole string. -/
def expandEnv (ctx : String → Option String) (s : String) : String :=
  String.mk (expandAux ctx s.data.length s.data)

/- Data model (src/main.rs).  The fields `from`, `include` and `env` of `Mend`
   play no role in the planner and executor claims: the process environment is
   passed explicitly as a lookup function `String → Option String`.  The Rust
   `BTreeMap`s are modelled as association lists in key-sorted order (BTreeMap
   iteration order); `filter`/head-of-filtered-list mirror `.iter().filter(..)`
   and `.values().next()`. -/

structure Recipe where
  run : String
  commit_template : Option String
  tag : Option String
  tags : List String
deriving DecidableEq, Repr

structure Hook where
  run : Option String
  when_tag : Option String
  when_not_tag : Option String
deriving DecidableEq, Repr

structure Mend where
  recipes : List (String × Recipe)
  hooks : List (String × List Hook)
  steps : List String
deriving DecidableEq, Repr

/-- Lookup in an association list (model of `BTreeMap::get`). -/
def lookupAssoc {α : Type} : List (String × α) → String → Option α
  | [], _ => none
  | (k, v) :: rest, key => if k = key then some v else lookupAssoc rest key

/- Planner (src/run.rs). -/

structure StepRequest where
  run : String
  run_resolved : List String
  commit_msg : String
deriving DecidableEq, Repr

inductive EStatus where
  | Pending
  | Running
  | Done
  | Failed
deriving DecidableEq, Repr

structure StepResponse where
  sha : Option String
  status : EStatus
  output : Option String
deriving DecidableEq, Repr

/-- Body of the hook loop in `add_matching_hooks` (src/run.rs lines 80-94):
    the scripts pushed for the given hook list, in declared order. -/
def matchingHookScripts (tags : List String) : List Hook → List String
  | [] => []
  | h :: hs =>
    let rest := matchingHookScripts tags hs
    match h.run with
    | none => rest
    | some hook_run =>
      match h.when_tag with
      | some when_tag => if tags.contains when_tag then hook_run :: rest else rest
      | none =>
        match h.when_not_tag with
        | some when_not_tag => if tags.contains when_not_tag then rest else hook_run :: rest
        | none => hook_run :: rest

/-- Model of `add_matching_hooks` (src/run.rs lines 78-96). -/
def add_matching_hooks (scripts : List String) (mend : Mend) (key : String)
    (tags : List String) : List String :=
  match lookupAssoc mend.hooks key with
  | none => scripts
  | some hooks => scripts ++ matchingHookScripts tags hooks

/-- Model of `resolve_step_scripts` (src/run.rs lines 45-64). -/
def resolve_step_scripts (instruction : String) (mend : Mend)
    (matching_recipes : List (String × Recipe)) : List String :=
  let resolved_instruction :=
    String.join (matching_recipes.map
      (fun p => "function " ++ p.1 ++ "() \x7b\n" ++ p.2.run ++ "\n\x7d\n"))
      ++ instruction ++ "\n"
  let recipe_tags := (matching_recipes.map (fun p => p.2.tags)).flatten
  add_matching_hooks
    (add_matching_hooks [] mend "before_step" recipe_tags ++ [resolved_instruction])
    mend "after_step" recipe_tags

/-- The closure `context` inside `render_commit_message` (src/run.rs lines 132-145):
    a name parsing as an i16 in `[1, args.len() as i16)` resolves to the positional
    argument, anything else falls back to the process environment `env`. -/
def renderContext (args : List String) (env : String → Option String)
    (s : String) : Option String :=
  match parseI16 s with
  | some arg_num =>
    if 1 ≤ arg_num ∧ arg_num < wrap16 args.length then
      match args.get? arg_num.toNat with
      | some found_arg => some found_arg
      | none => env s
    else env s
  | none => env s

/-- Model of `render_commit_message` (src/run.rs lines 120-149); `env` is the
    process environment consulted by `std::env::var`. -/
def render_commit_message (env : String → Option String) (instruction : String)
    (matching_recipes : List (String × Recipe)) : String :=
  let commit_template :=
    match matching_recipes.head? with
    | none => instruction
    | some p =>
      match p.2.commit_template with
      | none => instruction
      | some template => template
  let args := split_whitespace instruction
  expandEnv (renderContext args env) commit_template

/-- Model of `create_run_status_from_mend` (src/run.rs lines 98-118). -/
def create_run_status_from_mend (env : String → Option String) (mend : Mend) :
    List StepRequest :=
  mend.steps.map (fun step_text =>
    let instruction_trimmed := trimStr step_text
    let instruction_recipe_name := (split_whitespace instruction_trimmed).headD ""
    let matching_recipes := mend.recipes.filter (fun p => p.1 == instruction_recipe_name)
    { run := step_text,
      run_resolved := resolve_step_scripts step_text mend matching_recipes,
      commit_msg := render_commit_message env instruction_trimmed matching_recipes })

/- Step executor (src/run.rs lines 151-254) and driver loop (src/main.rs
   lines 83-137).  The `Executor`, `Repo` and `Notify` trait objects are
   modelled by: a result function `Nat → ExecResult` giving the outcome of
   the executor invocation for each script index of a step (the loop invokes
   the executor once per script, in order); a `RepoModel` holding the
   outcomes of `commit_all` and `current_short_sha` for the one commit a
   `run_step` call can attempt (`reset_hard`'s result is discarded by the
   code and not modelled); and an event trace recording every interaction
   in order.  The `Event.notifyFailure` constructor stands for the
   `Notify::notify_failure` trait method (src/progress.rs line 14); no
   function of the source outside tests invokes it, hence no model function
   emits it. -/

inductive ExecResult where
  | ok (success : Bool) (stdout stderr : String)
  | err (emsg : String)
deriving DecidableEq, Repr

inductive CommitResult where
  | ok
  | error (emsg : String)
deriving DecidableEq, Repr

structure RepoModel where
  commitResult : CommitResult
  shaResult : Option String
deriving DecidableEq, Repr

inductive Event where
  | notify (i : Nat) (runText : String) (status : EStatus) (sha : Option String) (inc : Bool)
  | runScript (script : String)
  | commitAll (msg : String)
  | resetHard
  | notifyDone
  | notifyFailure (req : StepRequest) (resp : StepResponse)
  | printFailed (req : StepRequest) (resp : StepResponse)
deriving DecidableEq, Repr

/-- Model of `StepResponse::push_output_str` (src/run.rs lines 29-34). -/
def push_output_str (r : StepResponse) (text : String) : StepResponse :=
  match r.output with
  | none => { r with output := some text }
  | some prev_text => { r with output := some (prev_text ++ "\n" ++ text) }

/-- The `for script in &step_request.run_resolved` loop of `run_step`
    (src/run.rs lines 181-221); `k` is the index of the next script.
    On a non-zero exit status the loop breaks; on a spawn error (`Err`)
    the source sets `Failed` and notifies but does not break, so the
    recursion continues. -/
def runStepScriptsLoop (exec : Nat → ExecResult) (step_i : Nat) (runText : String) :
    List String → Nat → StepResponse → StepResponse × List Event
  | [], _, resp => (resp, [])
  | script :: rest, k, resp =>
    let evNotify := Event.notify step_i runText resp.status resp.sha true
    let resp1 := push_output_str resp ("Running\n" ++ script ++ "\n")
    match exec k with
    | .ok success stdout stderr =>
      let resp2 := push_output_str (push_output_str resp1 stdout) stderr
      if success then
        let next := runStepScriptsLoop exec step_i runText rest (k + 1) resp2
        (next.1, evNotify :: Event.runScript script :: next.2)
      else
        let resp3 := { resp2 with status := EStatus.Failed }
        (resp3, [evNotify, Event.runScript script,
                 Event.notify step_i runText resp3.status resp3.sha false])
    | .err e =>
      let resp2 := push_output_str resp1 ("Failed to run\n" ++ e)
      let resp3 := { resp2 with status := EStatus.Failed }
      let next := runStepScriptsLoop exec step_i runText rest (k + 1) resp3
      (next.1, evNotify :: Event.runScript script ::
               Event.notify step_i runText resp3.status resp3.sha false :: next.2)

/-- Model of `run_step` (src/run.rs lines 172-254): returns the final response
    together with the trace of repo/executor/notifier interactions. -/
def run_step (repo : RepoModel) (exec : Nat → ExecResult) (step_i : Nat)
    (step_request : StepRequest) (resp0 : StepResponse) : StepResponse × List Event :=
  let started := { resp0 with status := EStatus.Running }
  let loopRes := runStepScriptsLoop exec step_i step_request.run step_request.run_resolved 0 started
  let resp1 := loopRes.1
  if resp1.status ≠ EStatus.Failed then
    let resp2 := { resp1 with status := EStatus.Done }
    let resp3 := push_output_str resp2
      ("Committing with message \x27" ++ step_request.commit_msg ++ "\x27")
    match repo.commitResult with
    | .ok =>
      let resp4 :=
        match repo.shaResult with
        | some sha => { resp3 with sha := some sha }
        | none => resp3
      (resp4, loopRes.2 ++ [Event.commitAll step_request.commit_msg,
                            Event.notify step_i step_request.run resp4.status resp4.sha true])
    | .error e =>
      let resp4 := push_output_str resp3 e
      let resp5 := { resp4 with status := EStatus.Failed }
      (resp5, loopRes.2 ++ [Event.commitAll step_request.commit_msg,
                            Event.notify step_i step_request.run resp5.status resp5.sha true])
  else
    (resp1, loopRes.2 ++ [Event.resetHard,
                          Event.notify step_i step_request.run resp1.status resp1.sha false])

/-- The fresh response the driver constructs for each step
    (src/main.rs line 121). -/
def freshStepResponse : StepResponse :=
  { sha := none, status := EStatus.Pending, output := none }

/-- Model of the `run_all_steps` of src/main.rs (lines 118-137): iterate the
    step requests from index `step_i`; on a `Failed` response print the failing
    request and response and stop.  The repo and executor outcomes are indexed
    by the absolute step index. -/
def run_all_steps (repo : Nat → RepoModel) (exec : Nat → Nat → ExecResult) :
    List StepRequest → Nat → List Event
  | [], _ => []
  | req :: rest, step_i =>
    let res := run_step (repo step_i) (exec step_i) step_i req freshStepResponse
    if res.1.status = EStatus.Failed then
      res.2 ++ [Event.printFailed req res.1]
    else
      res.2 ++ run_all_steps repo exec rest (step_i + 1)

/-- The step-driving tail of `drive` (src/main.rs lines 113-114):
    `run_all_steps` then `notifier.notify_done()`. -/
def driveSteps (repo : Nat → RepoModel) (exec : Nat → Nat → ExecResult)
    (reqs : List StepRequest) : List Event :=
  run_all_steps repo exec reqs 0 ++ [Event.notifyDone]

/- Event classifiers used by the theorems. -/

def isNotify : Event → Bool
  | .notify _ _ _ _ _ => true
  | _ => false

def isRunScript : Event → Bool
  | .runScript _ => true
  | _ => false

def isCommitAll : Event → Bool
  | .commitAll _ => true
  | _ => false

def isResetHard : Event → Bool
  | .resetHard => true
  | _ => false

def isNotifyDone : Event → Bool
  | .notifyDone => true
  | _ => false

def isNotifyFailure : Event → Bool
  | .notifyFailure _ _ => true
  | _ => false

def isPrintFailed : Event → Bool
  | .printFailed _ _ => true
  | _ => false

/-- The increment flag of a notification event (`false` for other events). -/
def eventInc : Event → Bool
  | .notify _ _ _ _ inc => inc
  | _ => false

/-- An executor result that is a process with exit status zero. -/
def isOkTrue : ExecResult → Bool
  | .ok true _ _ => true
  | _ => false

/-- An executor result that is a process with a non-zero exit status. -/
def isOkFalse : ExecResult → Bool
  | .ok false _ _ => true
  | _ => false

/-- Every script of the step runs with exit status zero. -/
def allScriptsOk (exec : Nat → ExecResult) (n : Nat) : Prop :=
  ∀ k, k < n → isOkTrue (exec k) = true

example : split_whitespace "  cmd  arg1 arg2 " = ["cmd", "arg1", "arg2"] := by decide

example : trimStr " cmd arg1 " = "cmd arg1" := by decide

example : parseI16 "12" = some 12 := by decide

example : parseI16 "+3" = some 3 := by decide

example : parseI16 "40000" = none := by decide

example : parseI16 "1x" = none := by decide

example :
    render_commit_message (fun _ => none) "rename arg1 arg2"
      [("rename", { run := "rename-cli $1 $2", commit_template := some "r - Rename $1 to $2",
                    tag := none, tags := [] })] = "r - Rename arg1 to arg2" := by decide

example :
    render_commit_message (fun _ => none) "cmd arg1 arg2" [] = "cmd arg1 arg2" := by decide

example : expandEnv (fun _ => none) "a $$b $ $\x7bx c" = "a $b $ $\x7bx c" := by decide

example :
    resolve_step_scripts "cmd arg1 arg2"
      { recipes := [("cmd", { run := "resolved $1 $2", commit_template := none,
                              tag := none, tags := [] })],
        hooks := [], steps := ["cmd arg1 arg2"] }
      [("cmd", { run := "resolved $1 $2", commit_template := none, tag := none, tags := [] })]
      = ["function cmd() \x7b\nresolved $1 $2\n\x7d\ncmd arg1 arg2\n"] := by decide

/- Concrete fixtures used by counterexamples and code-bug evidence. -/

/-- Empty process environment. -/
def env0 : String → Option String := fun _ => none

def c1req : StepRequest := { run := "step1", run_resolved := ["a", "b"], commit_msg := "m1" }

def c1exec : Nat → ExecResult := fun k => if k = 0 then .err "boom" else .ok true "" ""

def c1repo : RepoModel := { commitResult := .ok, shaResult := some "abc1234" }

/-- C1: evidence for the code bug.  With two scripts where the executor returns a
    spawn error (`Err`) on the first, `run_step` sets `Failed`, notifies without
    increment (the spec mandates a `break` here), but the loop continues: the
    second script `"b"` is still passed to the executor.  The step still ends
    `Failed`, without a commit and with one `reset_hard`. -/
theorem C1_run_step_continues_after_spawn_error :
    Event.runScript "b" ∈ (run_step c1repo c1exec 0 c1req freshStepResponse).2 ∧
      (run_step c1repo c1exec 0 c1req freshStepResponse).1.status = EStatus.Failed ∧
      (run_step c1repo c1exec 0 c1req freshStepResponse).2.countP isCommitAll = 0 ∧
      (run_step c1repo c1exec 0 c1req freshStepResponse).2.countP isResetHard = 1 := by
  decide

def c4req : StepRequest := { run := "s4", run_resolved := ["script1"], commit_msg := "m4" }

def c4exec : Nat → ExecResult := fun _ => .ok true "" ""

def c4repo : RepoModel := { commitResult := .ok, shaResult := some "abc1234" }

/-- C4: counterexample.  For a one-script step that succeeds, the notifications of
    `run_step` are exactly one increment notification (status `Running`) before the
    script and the final increment notification: no initial no-increment notification
    is ever emitted, contradicting the claimed `Running` no-increment notification
    at entry. -/
theorem C4_counterexample :
    ((run_step c4repo c4exec 0 c4req freshStepResponse).2.filter isNotify =
      [Event.notify 0 "s4" EStatus.Running none true,
       Event.notify 0 "s4" EStatus.Done (some "abc1234") true]) ∧
      (run_step c4repo c4exec 0 c4req freshStepResponse).2.countP
        (fun e => isNotify e && !eventInc e) = 0 := by
  decide

def c10req : StepRequest := { run := "r10", run_resolved := [], commit_msg := "m10" }

def c10repo : RepoModel := { commitResult := .ok, shaResult := none }

/-- C10: counterexample.  For an empty step whose commit succeeds but whose
    revision lookup fails, `run_step` does attempt the commit and ends `Done`,
    yet the revision is not set: the claim's "revision set" conjunct fails. -/
theorem C10_counterexample :
    ((run_step c10repo c4exec 0 c10req freshStepResponse).1.status = EStatus.Done) ∧
      ((run_step c10repo c4exec 0 c10req freshStepResponse).1.sha = none) ∧
      ((run_step c10repo c4exec 0 c10req freshStepResponse).2.countP isCommitAll = 1) ∧
      c10repo.commitResult = CommitResult.ok := by
  decide

def c2mend : Mend := { recipes := [], hooks := [], steps := ["cmd $2 x"] }

/-- C2: counterexample.  With no recipes, the planner still applies dollar
    substitution to the trimmed step line: the step line `"cmd $2 x"` is its own
    commit template and `$2` resolves to argument 2 (`"x"`), so the commit message
    is `"cmd x x"`, not the trimmed line itself. -/
theorem C2_counterexample :
    ((create_run_status_from_mend env0 c2mend).map (fun r => r.commit_msg) = ["cmd x x"]) ∧
      trimStr "cmd $2 x" = "cmd $2 x" ∧ "cmd x x" ≠ "cmd $2 x" := by
  decide

def c9mend : Mend :=
  { recipes := [],
    hooks := [("before_step", [{ run := some "x\n", when_tag := none, when_not_tag := none }])],
    steps := ["x"] }

/-- C9: counterexample.  A selected before-step hook whose body equals the main
    script (`"x\n"`) makes the planned script list contain the main script twice,
    so it does not contain it exactly once. -/
theorem C9_counterexample :
    ((create_run_status_from_mend env0 c9mend).map (fun r => r.run_resolved) =
      [["x\n", "x\n"]]) ∧
      (["x\n", "x\n"] : List String).count "x\n" = 2 := by
  decide

def c3req : StepRequest := { run := "a", run_resolved := ["s"], commit_msg := "m3" }

def c3repo : Nat → RepoModel := fun _ => { commitResult := .ok, shaResult := some "abc" }

def c3exec : Nat → Nat → ExecResult := fun _ _ => .ok false "out" "err"

/-- C3: counterexample.  With a single step whose script exits non-zero, the
    driver's step loop produces a `Failed` response and prints the failing request
    and response, but `notifier.notify_failure` is never invoked (the trait method
    is dead code in src); `notify_done` still fires. -/
theorem C3_counterexample :
    ((driveSteps c3repo c3exec [c3req]).countP isNotifyFailure = 0) ∧
      ((driveSteps c3repo c3exec [c3req]).countP isPrintFailed = 1) ∧
      ((driveSteps c3repo c3exec [c3req]).countP isNotifyDone = 1) ∧
      (run_step (c3repo 0) (c3exec 0) 0 c3req freshStepResponse).1.status = EStatus.Failed := by
  decide

/- Helper lemmas about the step-executor loop. -/

theorem push_output_str_status (r : StepResponse) (t : String) :
    (push_output_str r t).status = r.status := by
  unfold push_output_str; cases r.output <;> rfl

theorem push_output_str_sha (r : StepResponse) (t : String) :
    (push_output_str r t).sha = r.sha := by
  unfold push_output_str; cases r.output <;> rfl

theorem runStepScriptsLoop_sha (exec : Nat → ExecResult) (i : Nat) (rt : String) :
    ∀ (scripts : List String) (k : Nat) (resp : StepResponse),
      (runStepScriptsLoop exec i rt scripts k resp).1.sha = resp.sha := by
  intro scripts
  induction scripts with
  | nil => intro k resp; rfl
  | cons s rest ih =>
    intro k resp
    cases hk : exec k with
    | ok success stdout stderr =>
      cases success with
      | false => simp [runStepScriptsLoop, hk, push_output_str_sha]
      | true => simp [runStepScriptsLoop, hk, ih, push_output_str_sha]
    | err e => simp [runStepScriptsLoop, hk, ih, push_output_str_sha]

theorem runStepScriptsLoop_status_failed_iff (exec : Nat → ExecResult) (i : Nat) (rt : String) :
    ∀ (scripts : List String) (k : Nat) (resp : StepResponse),
      ((runStepScriptsLoop exec i rt scripts k resp).1.status = EStatus.Failed ↔
        (resp.status = EStatus.Failed ∨
          ∃ j, j < scripts.length ∧ isOkTrue (exec (k + j)) = false)) := by
  intro scripts
  induction scripts with
  | nil =>
    intro k resp
    simp [runStepScriptsLoop]
  | cons s rest ih =>
    intro k resp
    cases hk : exec k with
    | ok success stdout stderr =>
      cases success with
      | false =>
        simp only [runStepScriptsLoop, hk]
        refine iff_of_true rfl (Or.inr ⟨0, by simp, ?_⟩)
        simp [isOkTrue, hk]
      | true =>
        simp only [runStepScriptsLoop, hk, if_true]
        rw [ih]
        rw [push_output_str_status, push_output_str_status, push_output_str_status]
        constructor
        · rintro (hfail | ⟨j, hj, hP⟩)
          · exact Or.inl hfail
          · refine Or.inr ⟨j + 1, by simpa using Nat.succ_lt_succ hj, ?_⟩
            have e : k + (j + 1) = k + 1 + j := by omega
            rw [e]; exact hP
        · rintro (hfail | ⟨j, hj, hP⟩)
          · exact Or.inl hfail
          · cases j with
            | zero =>
              exfalso
              rw [Nat.add_zero] at hP
              simp [isOkTrue, hk] at hP
            | succ j =>
              refine Or.inr ⟨j, by simp only [List.length_cons] at hj; omega, ?_⟩
              have e : k + 1 + j = k + (j + 1) := by omega
              rw [e]; exact hP
    | err e =>
      simp only [runStepScriptsLoop, hk]
      refine iff_of_true ((ih (k + 1) _).mpr (Or.inl rfl))
        (Or.inr ⟨0, by simp, ?_⟩)
      simp [isOkTrue, hk]

theorem runStepScriptsLoop_all_ok (exec : Nat → ExecResult) (i : Nat) (rt : String) :
    ∀ (scripts : List String) (k : Nat) (resp : StepResponse),
      (∀ j, j < scripts.length → isOkTrue (exec (k + j)) = true) →
      ((runStepScriptsLoop exec i rt scripts k resp).2 =
        (scripts.map (fun s => [Event.notify i rt resp.status resp.sha true,
                                Event.runScript s])).flatten) ∧
      (runStepScriptsLoop exec i rt scripts k resp).1.status = resp.status := by
  intro scripts
  induction scripts with
  | nil => intro k resp _; exact ⟨rfl, rfl⟩
  | cons s rest ih =>
    intro k resp hall
    have h0 : isOkTrue (exec k) = true := by simpa using hall 0 (by simp)
    cases hk : exec k with
    | ok success stdout stderr =>
      cases success with
      | false => rw [hk] at h0; simp [isOkTrue] at h0
      | true =>
        have hrest : ∀ j, j < rest.length → isOkTrue (exec (k + 1 + j)) = true := by
          intro j hj
          have e : k + 1 + j = k + (j + 1) := by omega
          rw [e]
          exact hall (j + 1) (by simpa using Nat.succ_lt_succ hj)
        have hih := ih (k + 1)
          (push_output_str (push_output_str
            (push_output_str resp ("Running\n" ++ s ++ "\n")) stdout) stderr) hrest
        simp only [runStepScriptsLoop, hk, if_true]
        constructor
        · simp only [List.map_cons, List.flatten_cons]
          rw [hih.1]
          simp [push_output_str_status, push_output_str_sha]
        · rw [hih.2]
          simp [push_output_str_status]
    | err e => rw [hk] at h0; simp [isOkTrue] at h0

theorem runStepScriptsLoop_countP_zero (p : Event → Bool)
    (hn : ∀ a b c d f, p (Event.notify a b c d f) = false)
    (hr : ∀ s2, p (Event.runScript s2) = false)
    (exec : Nat → ExecResult) (i : Nat) (rt : String) :
    ∀ (scripts : List String) (k : Nat) (resp : StepResponse),
      (runStepScriptsLoop exec i rt scripts k resp).2.countP p = 0 := by
  intro scripts
  induction scripts with
  | nil => intro k resp; rfl
  | cons s rest ih =>
    intro k resp
    cases hk : exec k with
    | ok success stdout stderr =>
      cases success with
      | false => simp [runStepScriptsLoop, hk, List.countP_cons, hn, hr]
      | true => simp [runStepScriptsLoop, hk, List.countP_cons, hn, hr, ih]
    | err e2 => simp [runStepScriptsLoop, hk, List.countP_cons, hn, hr, ih]

theorem runStepScriptsLoop_break_at_first (exec : Nat → ExecResult) (i : Nat) (rt : String) :
    ∀ (scripts : List String) (base : Nat) (resp : StepResponse) (k : Nat),
      k < scripts.length →
      isOkFalse (exec (base + k)) = true →
      (∀ j, j < k → isOkFalse (exec (base + j)) = false) →
      ((runStepScriptsLoop exec i rt scripts base resp).1.status = EStatus.Failed) ∧
        ((runStepScriptsLoop exec i rt scripts base resp).2.filter isRunScript =
          (scripts.take (k + 1)).map Event.runScript) := by
  intro scripts
  induction scripts with
  | nil => intro base resp k hk _ _; exact absurd hk (by simp)
  | cons s rest ih =>
    intro base resp k hk hfail hfirst
    cases k with
    | zero =>
      rw [Nat.add_zero] at hfail
      cases hb : exec base with
      | ok success stdout stderr =>
        cases success with
        | true => rw [hb] at hfail; simp [isOkFalse] at hfail
        | false =>
          constructor
          · simp [runStepScriptsLoop, hb]
          · simp [runStepScriptsLoop, hb, List.filter_cons, isRunScript]
      | err e2 => rw [hb] at hfail; simp [isOkFalse] at hfail
    | succ k2 =>
      have h0 : isOkFalse (exec base) = false := by
        simpa using hfirst 0 (Nat.succ_pos k2)
      have hfail2 : isOkFalse (exec (base + 1 + k2)) = true := by
        have e : base + 1 + k2 = base + (k2 + 1) := by omega
        rw [e]; exact hfail
      have hfirst2 : ∀ j, j < k2 → isOkFalse (exec (base + 1 + j)) = false := by
        intro j hj
        have e : base + 1 + j = base + (j + 1) := by omega
        rw [e]; exact hfirst (j + 1) (by omega)
      have hk2 : k2 < rest.length := by simp only [List.length_cons] at hk; omega
      cases hb : exec base with
      | ok success stdout stderr =>
        cases success with
        | false => rw [hb] at h0; simp [isOkFalse] at h0
        | true =>
          have hih := ih (base + 1)
            (push_output_str (push_output_str
              (push_output_str resp ("Running\n" ++ s ++ "\n")) stdout) stderr)
            k2 hk2 hfail2 hfirst2
          constructor
          · simp only [runStepScriptsLoop, hb, if_true]
            exact hih.1
          · simp only [runStepScriptsLoop, hb, if_true, List.take_succ_cons, List.map_cons]
            simp [List.filter_cons, isRunScript, hih.2]
      | err e2 =>
        have hih := ih (base + 1)
          { push_output_str (push_output_str resp ("Running\n" ++ s ++ "\n"))
              ("Failed to run\n" ++ e2) with status := EStatus.Failed }
          k2 hk2 hfail2 hfirst2
        constructor
        · simp only [runStepScriptsLoop, hb]
          exact hih.1
        · simp only [runStepScriptsLoop, hb, List.take_succ_cons, List.map_cons]
          simp [List.filter_cons, isRunScript, hih.2]

/-- C6: if some script of the step exits non-zero (with `k` the index of the first
    such script), `run_step` never invokes `commit_all`, invokes `reset_hard`
    exactly once, and the scripts passed to the executor are exactly the scripts
    up to and including the failing one. -/
theorem C6_nonzero_exit_no_commit (repo : RepoModel) (exec : Nat → ExecResult) (i : Nat)
    (req : StepRequest) (k : Nat)
    (hk : k < req.run_resolved.length)
    (hfail : isOkFalse (exec k) = true)
    (hfirst : ∀ j, j < k → isOkFalse (exec j) = false) :
    ((run_step repo exec i req freshStepResponse).2.countP isCommitAll = 0) ∧
      ((run_step repo exec i req freshStepResponse).2.countP isResetHard = 1) ∧
      ((run_step repo exec i req freshStepResponse).2.filter isRunScript =
        (req.run_resolved.take (k + 1)).map Event.runScript) := by
  have hbrk := runStepScriptsLoop_break_at_first exec i req.run req.run_resolved 0
    { freshStepResponse with status := EStatus.Running } k hk
    (by simpa using hfail) (by intro j hj; simpa using hfirst j hj)
  have hczero := runStepScriptsLoop_countP_zero isCommitAll
    (by intro a b c d f; rfl) (by intro s2; rfl) exec i req.run req.run_resolved 0
    { freshStepResponse with status := EStatus.Running }
  have hrzero := runStepScriptsLoop_countP_zero isResetHard
    (by intro a b c d f; rfl) (by intro s2; rfl) exec i req.run req.run_resolved 0
    { freshStepResponse with status := EStatus.Running }
  unfold run_step
  simp only [hbrk.1, ne_eq, not_true_eq_false, if_false]
  refine ⟨?_, ?_, ?_⟩
  · simp [List.countP_append, hczero, List.countP_cons, isCommitAll]
  · simp [List.countP_append, hrzero, List.countP_cons, isResetHard]
  · simp [List.filter_append, hbrk.2, List.filter_cons, isRunScript]

def w6req : StepRequest := { run := "w6", run_resolved := ["a", "b"], commit_msg := "m6" }

def w6exec : Nat → ExecResult := fun k => if k = 0 then .ok false "" "" else .ok true "" ""

def w6repo : RepoModel := { commitResult := .ok, shaResult := some "deadbee" }

/-- C6 witness: concrete instance with the first of two scripts exiting non-zero. -/
theorem C6_witness :
    ((run_step w6repo w6exec 0 w6req freshStepResponse).2.countP isCommitAll = 0) ∧
      ((run_step w6repo w6exec 0 w6req freshStepResponse).2.countP isResetHard = 1) ∧
      ((run_step w6repo w6exec 0 w6req freshStepResponse).2.filter isRunScript =
        [Event.runScript "a"]) := by
  have h := C6_nonzero_exit_no_commit w6repo w6exec 0 w6req 0 (by decide) (by decide)
    (by intro j hj; exact absurd hj (Nat.not_lt_zero j))
  exact ⟨h.1, h.2.1, h.2.2.trans (by decide)⟩

/-- C4 (amended): `run_step` emits no initial notification; for each script of an
    all-succeeding step it emits exactly one increment notification (status
    `Running`, no revision) immediately before invoking the executor on that
    script, followed by the commit and one final increment notification. -/
theorem C4_amended (repo : RepoModel) (exec : Nat → ExecResult) (i : Nat) (req : StepRequest)
    (hall : ∀ k, k < req.run_resolved.length → isOkTrue (exec k) = true) :
    (run_step repo exec i req freshStepResponse).2 =
      (req.run_resolved.map (fun s =>
        [Event.notify i req.run EStatus.Running none true, Event.runScript s])).flatten ++
        [Event.commitAll req.commit_msg,
         match repo.commitResult with
         | CommitResult.ok => Event.notify i req.run EStatus.Done repo.shaResult true
         | CommitResult.error _ => Event.notify i req.run EStatus.Failed none true] := by
  have hok := runStepScriptsLoop_all_ok exec i req.run req.run_resolved 0
    ⟨none, EStatus.Running, none⟩ (by intro j hj; simpa using hall j hj)
  have hsha := runStepScriptsLoop_sha exec i req.run req.run_resolved 0
    ⟨none, EStatus.Running, none⟩
  have hstat : (runStepScriptsLoop exec i req.run req.run_resolved 0
      ⟨none, EStatus.Running, none⟩).1.status = EStatus.Running := hok.2
  unfold run_step
  cases hc : repo.commitResult with
  | ok =>
    cases hs : repo.shaResult with
    | some sha =>
      simp [freshStepResponse, hstat, hsha, hok.1, hs, push_output_str_status,
        push_output_str_sha]
    | none =>
      simp [freshStepResponse, hstat, hsha, hok.1, hs, push_output_str_status,
        push_output_str_sha]
  | error e =>
    simp [freshStepResponse, hstat, hsha, hok.1, push_output_str_status,
      push_output_str_sha]

/-- C4 witness: the one-script succeeding step of the counterexample fixture. -/
theorem C4_amended_witness :
    (run_step c4repo c4exec 0 c4req freshStepResponse).2 =
      [Event.notify 0 "s4" EStatus.Running none true, Event.runScript "script1",
       Event.commitAll "m4", Event.notify 0 "s4" EStatus.Done (some "abc1234") true] :=
  (C4_amended c4repo c4exec 0 c4req (by decide)).trans (by decide)

theorem allScriptsOk_iff (exec : Nat → ExecResult) (n : Nat) :
    allScriptsOk exec n ↔ ¬ ∃ j, j < n ∧ isOkTrue (exec j) = false := by
  unfold allScriptsOk
  constructor
  · rintro h ⟨j, hj, hfalse⟩
    rw [h j hj] at hfalse
    cases hfalse
  · intro h j hj
    by_contra hne
    exact h ⟨j, hj, by simpa using hne⟩

/-- C5 (amended): for a fresh (driver-constructed) response, `run_step` ends `Done`
    exactly when all scripts succeed and the commit succeeds, ends `Failed`
    otherwise, and the revision is set exactly when additionally the revision
    lookup succeeds (a failed `current_short_sha` leaves the revision unset even
    though the status is `Done`). -/
theorem C5_amended (repo : RepoModel) (exec : Nat → ExecResult) (i : Nat) (req : StepRequest) :
    ((run_step repo exec i req freshStepResponse).1.status = EStatus.Done ↔
      (allScriptsOk exec req.run_resolved.length ∧ repo.commitResult = CommitResult.ok)) ∧
      ((run_step repo exec i req freshStepResponse).1.status = EStatus.Failed ↔
        ¬ (allScriptsOk exec req.run_resolved.length ∧ repo.commitResult = CommitResult.ok)) ∧
      ((run_step repo exec i req freshStepResponse).1.sha.isSome = true ↔
        (allScriptsOk exec req.run_resolved.length ∧ repo.commitResult = CommitResult.ok ∧
          repo.shaResult.isSome = true)) := by
  have hsha := runStepScriptsLoop_sha exec i req.run req.run_resolved 0
    ⟨none, EStatus.Running, none⟩
  by_cases hall : allScriptsOk exec req.run_resolved.length
  · have hok := runStepScriptsLoop_all_ok exec i req.run req.run_resolved 0
      ⟨none, EStatus.Running, none⟩ (by intro j hj; simpa using hall j hj)
    have hstat : (runStepScriptsLoop exec i req.run req.run_resolved 0
        ⟨none, EStatus.Running, none⟩).1.status = EStatus.Running := hok.2
    unfold run_step
    cases hc : repo.commitResult with
    | ok =>
      cases hs : repo.shaResult with
      | some sha =>
        simp [freshStepResponse, hstat, hsha, hall, hs,
          push_output_str_status, push_output_str_sha]
      | none =>
        simp [freshStepResponse, hstat, hsha, hall, hs,
          push_output_str_status, push_output_str_sha]
    | error e =>
      simp [freshStepResponse, hstat, hsha, hall,
        push_output_str_status, push_output_str_sha]
  · have hex : ∃ j, j < req.run_resolved.length ∧ isOkTrue (exec j) = false := by
      by_contra hne
      exact hall ((allScriptsOk_iff exec req.run_resolved.length).mpr hne)
    have hfailed : (runStepScriptsLoop exec i req.run req.run_resolved 0
        ⟨none, EStatus.Running, none⟩).1.status = EStatus.Failed := by
      rw [runStepScriptsLoop_status_failed_iff]
      obtain ⟨j, hj, hP⟩ := hex
      exact Or.inr ⟨j, hj, by simpa using hP⟩
    unfold run_step
    simp [freshStepResponse, hfailed, hsha, hall]

/-- C10 (amended): an empty step runs no script, emits exactly one notification,
    attempts the commit exactly once; when the commit succeeds the step ends
    `Done` and the revision equals the outcome of the revision lookup (unset
    when the lookup fails). -/
theorem C10_amended (repo : RepoModel) (exec : Nat → ExecResult) (i : Nat) (req : StepRequest)
    (hempty : req.run_resolved = []) :
    ((run_step repo exec i req freshStepResponse).2.countP isRunScript = 0) ∧
      ((run_step repo exec i req freshStepResponse).2.countP isNotify = 1) ∧
      ((run_step repo exec i req freshStepResponse).2.countP isCommitAll = 1) ∧
      (repo.commitResult = CommitResult.ok →
        (run_step repo exec i req freshStepResponse).1.status = EStatus.Done ∧
          (run_step repo exec i req freshStepResponse).1.sha = repo.shaResult) := by
  unfold run_step
  rw [hempty]
  cases hc : repo.commitResult with
  | ok =>
    cases hs : repo.shaResult with
    | some sha =>
      simp [freshStepResponse, runStepScriptsLoop, hs, List.countP_cons,
        isNotify, isCommitAll, isRunScript, push_output_str_status, push_output_str_sha]
    | none =>
      simp [freshStepResponse, runStepScriptsLoop, hs, List.countP_cons,
        isNotify, isCommitAll, isRunScript, push_output_str_status, push_output_str_sha]
  | error e =>
    simp [freshStepResponse, runStepScriptsLoop, List.countP_cons,
      isNotify, isCommitAll, isRunScript, push_output_str_status, push_output_str_sha]

def w10repo : RepoModel := { commitResult := .ok, shaResult := some "abc9" }

/-- C10 witness: an empty step against a repo whose commit and lookup succeed. -/
theorem C10_amended_witness :
    ((run_step w10repo c4exec 0 c10req freshStepResponse).2.countP isRunScript = 0) ∧
      ((run_step w10repo c4exec 0 c10req freshStepResponse).2.countP isNotify = 1) ∧
      ((run_step w10repo c4exec 0 c10req freshStepResponse).2.countP isCommitAll = 1) ∧
      ((run_step w10repo c4exec 0 c10req freshStepResponse).1.status = EStatus.Done ∧
        (run_step w10repo c4exec 0 c10req freshStepResponse).1.sha = some "abc9") := by
  have h := C10_amended w10repo c4exec 0 c10req rfl
  exact ⟨h.1, h.2.1, h.2.2.1, (h.2.2.2 rfl).1, (h.2.2.2 rfl).2⟩

theorem run_step_countP_zero (p : Event → Bool)
    (hn : ∀ a b c d f, p (Event.notify a b c d f) = false)
    (hr : ∀ s2, p (Event.runScript s2) = false)
    (hcz : ∀ m, p (Event.commitAll m) = false)
    (hreset : p Event.resetHard = false)
    (repo : RepoModel) (exec : Nat → ExecResult) (i : Nat) (req : StepRequest)
    (resp0 : StepResponse) :
    (run_step repo exec i req resp0).2.countP p = 0 := by
  have hz := runStepScriptsLoop_countP_zero p hn hr exec i req.run req.run_resolved 0
    ⟨resp0.sha, EStatus.Running, resp0.output⟩
  unfold run_step
  by_cases hst : (runStepScriptsLoop exec i req.run req.run_resolved 0
      ⟨resp0.sha, EStatus.Running, resp0.output⟩).1.status = EStatus.Failed
  · simp [hst, List.countP_append, hz, List.countP_cons, hn, hreset]
  · cases hcr : repo.commitResult with
    | ok =>
      cases repo.shaResult <;>
        simp [hst, List.countP_append, hz, List.countP_cons, hn, hcz]
    | error e =>
      simp [hst, List.countP_append, hz, List.countP_cons, hn, hcz]

theorem run_all_steps_countP_zero (p : Event → Bool)
    (hn : ∀ a b c d f, p (Event.notify a b c d f) = false)
    (hr : ∀ s2, p (Event.runScript s2) = false)
    (hcz : ∀ m, p (Event.commitAll m) = false)
    (hreset : p Event.resetHard = false)
    (hp : ∀ req resp, p (Event.printFailed req resp) = false)
    (repo : Nat → RepoModel) (exec : Nat → Nat → ExecResult) :
    ∀ (reqs : List StepRequest) (i : Nat), (run_all_steps repo exec reqs i).countP p = 0 := by
  intro reqs
  induction reqs with
  | nil => intro i; rfl
  | cons req rest ih =>
    intro i
    by_cases hst : (run_step (repo i) (exec i) i req freshStepResponse).1.status = EStatus.Failed
    · simp [run_all_steps, hst, List.countP_append,
        run_step_countP_zero p hn hr hcz hreset, List.countP_cons, hp]
    · simp [run_all_steps, hst, List.countP_append,
        run_step_countP_zero p hn hr hcz hreset, ih]

/-- C3 (amended): the driver's step loop, upon a `Failed` step response, prints
    the failing request and response and executes no further step, and the driver
    still emits `notify_done` exactly once afterwards; `notifier.notify_failure`
    is never invoked anywhere. -/
theorem C3_amended :
    (∀ (repo : Nat → RepoModel) (exec : Nat → Nat → ExecResult) (reqs : List StepRequest),
      (driveSteps repo exec reqs).countP isNotifyDone = 1 ∧
        (driveSteps repo exec reqs).countP isNotifyFailure = 0) ∧
      (∀ (repo : Nat → RepoModel) (exec : Nat → Nat → ExecResult) (i : Nat)
        (req : StepRequest) (rest : List StepRequest),
        (run_step (repo i) (exec i) i req freshStepResponse).1.status = EStatus.Failed →
        run_all_steps repo exec (req :: rest) i =
          (run_step (repo i) (exec i) i req freshStepResponse).2 ++
            [Event.printFailed req (run_step (repo i) (exec i) i req freshStepResponse).1]) := by
  constructor
  · intro repo exec reqs
    constructor
    · simp [driveSteps, List.countP_append, List.countP_cons, isNotifyDone,
        run_all_steps_countP_zero isNotifyDone (by intro a b c d f; rfl) (by intro s2; rfl)
          (by intro m; rfl) rfl (by intro rq rs; rfl) repo exec reqs 0]
    · simp [driveSteps, List.countP_append, List.countP_cons, isNotifyFailure,
        run_all_steps_countP_zero isNotifyFailure (by intro a b c d f; rfl) (by intro s2; rfl)
          (by intro m; rfl) rfl (by intro rq rs; rfl) repo exec reqs 0]
  · intro repo exec i req rest hfail
    simp [run_all_steps, hfail]

/-- C3 witness: concrete failing single-step plan; the loop stops at the failed
    step and appends the printed failure. -/
theorem C3_amended_witness :
    run_all_steps c3repo c3exec [c3req] 0 =
      (run_step (c3repo 0) (c3exec 0) 0 c3req freshStepResponse).2 ++
        [Event.printFailed c3req (run_step (c3repo 0) (c3exec 0) 0 c3req freshStepResponse).1] :=
  C3_amended.2 c3repo c3exec 0 c3req [] (by decide)

theorem expandAux_no_dollar (ctx : String → Option String) :
    ∀ (fuel : Nat) (l : List Char), '$' ∉ l → expandAux ctx fuel l = l := by
  intro fuel
  induction fuel with
  | zero => intro l _; rfl
  | succ fuel ih =>
    intro l hl
    cases l with
    | nil => rfl
    | cons c rest =>
      have hc : ¬ c = '$' := by
        intro h
        exact hl (h ▸ List.mem_cons_self c rest)
      have hrest : '$' ∉ rest := fun h => hl (List.mem_cons_of_mem c h)
      simp [expandAux, hc, ih rest hrest]

theorem expandEnv_no_dollar (ctx : String → Option String) (s : String)
    (h : '$' ∉ s.data) : expandEnv ctx s = s := by
  unfold expandEnv
  rw [expandAux_no_dollar ctx s.data.length s.data h]

/-- C2 (amended): for a step with no matching recipe, the commit message is the
    trimmed step line with dollar substitution applied to it; in particular it
    equals the trimmed step line exactly whenever that line contains no dollar
    character. -/
theorem C2_amended (env : String → Option String) (mend : Mend) (i : Nat) (line : String)
    (hline : mend.steps.get? i = some line)
    (hnorecipe : mend.recipes.filter
      (fun p => p.1 == (split_whitespace (trimStr line)).headD "") = [])
    (hnodollar : '$' ∉ (trimStr line).data) :
    ((create_run_status_from_mend env mend).get? i).map (fun r => r.commit_msg) =
      some (trimStr line) := by
  unfold create_run_status_from_mend
  rw [List.get?_map, hline]
  simp only [Option.map_some']
  rw [hnorecipe]
  simp [render_commit_message]
  exact expandEnv_no_dollar _ _ hnodollar

def w2mend : Mend := { recipes := [], hooks := [], steps := ["echo hi"] }

/-- C2 witness: a dollar-free step line with no matching recipe keeps its trimmed
    text as the commit message. -/
theorem C2_amended_witness :
    ((create_run_status_from_mend env0 w2mend).get? 0).map (fun r => r.commit_msg) =
      some "echo hi" :=
  (C2_amended env0 w2mend 0 "echo hi" rfl (by decide) (by decide)).trans (by decide)

/- Hook selection, phrased from the claim: a hook body is included exactly when
   the hook has a body and (`when_tag` is set and active) or (`when_tag` unset,
   `when_not_tag` set and inactive) or (neither is set). -/

def claimHookIncluded (tags : List String) (h : Hook) : Bool :=
  h.run.isSome &&
    ((h.when_tag.any fun t => tags.contains t) ||
      (h.when_tag.isNone && h.when_not_tag.isSome &&
        !(h.when_not_tag.any fun t => tags.contains t)) ||
      (h.when_tag.isNone && h.when_not_tag.isNone))

/-- The hook bodies selected by the claim's predicate, in declared order. -/
def selectedHookScripts (mend : Mend) (key : String) (tags : List String) : List String :=
  ((lookupAssoc mend.hooks key).getD []).filterMap
    (fun h => if claimHookIncluded tags h then h.run else none)

theorem matchingHookScripts_eq (tags : List String) :
    ∀ hooks : List Hook,
      matchingHookScripts tags hooks =
        hooks.filterMap (fun h => if claimHookIncluded tags h then h.run else none) := by
  intro hooks
  induction hooks with
  | nil => rfl
  | cons h hs ih =>
    rcases h with ⟨hrun, hwt, hwnt⟩
    cases hrun with
    | none => simp [matchingHookScripts, claimHookIncluded, List.filterMap_cons, ih]
    | some b =>
      cases hwt with
      | some t =>
        by_cases ht : t ∈ tags <;>
          simp [matchingHookScripts, claimHookIncluded, List.filterMap_cons, ih, ht, Option.any]
      | none =>
        cases hwnt with
        | some t2 =>
          by_cases ht2 : t2 ∈ tags <;>
            simp [matchingHookScripts, claimHookIncluded, List.filterMap_cons, ih, ht2, Option.any]
        | none =>
          simp [matchingHookScripts, claimHookIncluded, List.filterMap_cons, ih, Option.any]

theorem add_matching_hooks_eq (scripts : List String) (mend : Mend) (key : String)
    (tags : List String) :
    add_matching_hooks scripts mend key tags = scripts ++ selectedHookScripts mend key tags := by
  unfold add_matching_hooks selectedHookScripts
  cases hl : lookupAssoc mend.hooks key with
  | none => simp
  | some hooks => simp [matchingHookScripts_eq]

/-- C8: for any hook key and active tag set, `add_matching_hooks` appends exactly
    the bodies of the declared hooks (in declared order) selected by the claim's
    predicate: a body exists and (`when_tag` set and a member of the active tags)
    or (`when_tag` unset, `when_not_tag` set and not a member) or (neither set). -/
theorem C8_hook_selection (scripts : List String) (mend : Mend) (key : String)
    (tags : List String) :
    add_matching_hooks scripts mend key tags = scripts ++ selectedHookScripts mend key tags :=
  add_matching_hooks_eq scripts mend key tags

/-- Union of the tags of the matching recipes (src/run.rs lines 48-56). -/
def recipeTags (matching_recipes : List (String × Recipe)) : List String :=
  (matching_recipes.map (fun p => p.2.tags)).flatten

/-- The main script of a step: recipe function prelude, the step line, a newline. -/
def mainScript (instruction : String) (matching_recipes : List (String × Recipe)) : String :=
  String.join (matching_recipes.map
    (fun p => "function " ++ p.1 ++ "() \x7b\n" ++ p.2.run ++ "\n\x7d\n")) ++ instruction ++ "\n"

theorem resolve_step_scripts_eq (instruction : String) (mend : Mend)
    (matching_recipes : List (String × Recipe)) :
    resolve_step_scripts instruction mend matching_recipes =
      selectedHookScripts mend "before_step" (recipeTags matching_recipes) ++
        mainScript instruction matching_recipes ::
          selectedHookScripts mend "after_step" (recipeTags matching_recipes) := by
  unfold resolve_step_scripts
  rw [add_matching_hooks_eq, add_matching_hooks_eq]
  simp [mainScript, recipeTags]

/-- C9 (amended): the planned scripts are exactly the selected before-step hook
    bodies, then the main script, then the selected after-step hook bodies; the
    main script therefore occurs there, after all before-hook entries and before
    all after-hook entries, and occurs exactly once provided no selected hook
    body equals it. -/
theorem C9_amended (mend : Mend) (instruction : String)
    (matching_recipes : List (String × Recipe)) :
    (resolve_step_scripts instruction mend matching_recipes =
      selectedHookScripts mend "before_step" (recipeTags matching_recipes) ++
        mainScript instruction matching_recipes ::
          selectedHookScripts mend "after_step" (recipeTags matching_recipes)) ∧
      (mainScript instruction matching_recipes ∉
          selectedHookScripts mend "before_step" (recipeTags matching_recipes) →
        mainScript instruction matching_recipes ∉
          selectedHookScripts mend "after_step" (recipeTags matching_recipes) →
        (resolve_step_scripts instruction mend matching_recipes).count
          (mainScript instruction matching_recipes) = 1) := by
  refine ⟨resolve_step_scripts_eq instruction mend matching_recipes, ?_⟩
  intro hb ha
  rw [resolve_step_scripts_eq]
  simp [List.count_append, List.count_cons, List.count_eq_zero_of_not_mem hb,
    List.count_eq_zero_of_not_mem ha]

def w9mend : Mend :=
  { recipes := [],
    hooks := [("before_step",
      [{ run := some "echo before", when_tag := none, when_not_tag := none }])],
    steps := [] }

/-- C9 witness: with one unconditional before-step hook distinct from the main
    script, the main script occurs exactly once. -/
theorem C9_amended_witness :
    (resolve_step_scripts "cmd" w9mend []).count (mainScript "cmd" []) = 1 :=
  (C9_amended w9mend "cmd" []).2 (by decide) (by decide)

/- Commit-template rendering (C7).  The claim-side context follows the spec
   wording: a reference whose name is a number `N` with `1 ≤ N < len(args)`
   resolves to `args[N]` (token 0 being the recipe-name token), any other
   reference falls back to the process environment, and a `none` result leaves
   the reference unexpanded. -/

def specCommitContext (args : List String) (env : String → Option String)
    (s : String) : Option String :=
  match parseIntRaw s with
  | some n => if 1 ≤ n ∧ n < (args.length : Int) then args.get? n.toNat else env s
  | none => env s

theorem wrap16_eq_of_le (n : Nat) (h : n ≤ 32767) : wrap16 n = n := by
  unfold wrap16
  have h0 : (0 : Int) ≤ (n : Int) + 32768 := by omega
  have h1 : (n : Int) + 32768 < 65536 := by omega
  rw [Int.emod_eq_of_lt h0 h1]
  omega

theorem renderContext_eq_spec (args : List String) (env : String → Option String)
    (hlen : args.length ≤ 32767) :
    ∀ s, renderContext args env s = specCommitContext args env s := by
  intro s
  unfold renderContext specCommitContext parseI16
  cases hp : parseIntRaw s with
  | none => rfl
  | some v =>
    by_cases hv : -32768 ≤ v ∧ v ≤ 32767
    · simp only [hv, and_self, if_true, if_pos hv]
      rw [wrap16_eq_of_le args.length hlen]
      by_cases hcond : 1 ≤ v ∧ v < (args.length : Int)
      · simp only [if_pos hcond]
        cases hg : args.get? v.toNat with
        | some found => rfl
        | none =>
          exfalso
          rw [List.get?_eq_none] at hg
          have : v.toNat < args.length := by omega
          omega
      · simp only [if_neg hcond]
    · simp only [if_neg hv]
      have hcond : ¬ (1 ≤ v ∧ v < (args.length : Int)) := by omega
      simp only [if_neg hcond]

theorem expandEnv_congr (ctx1 ctx2 : String → Option String)
    (h : ∀ s, ctx1 s = ctx2 s) (s : String) : expandEnv ctx1 s = expandEnv ctx2 s := by
  rw [funext h]

/-- C7 (amended): for a step line whose first token matches a recipe carrying a
    commit template, the rendered commit message is the template expanded with the
    claim's context — numeric references `N` with `1 ≤ N < len(args)` replaced by
    the `N`-th whitespace token (1-based, token 0 the recipe name), other
    references resolved from the environment, unresolvable ones left unexpanded —
    provided the step line has at most 32767 whitespace tokens (positional
    references are parsed as 16-bit integers and the token count is cast to i16
    by the code). -/
theorem C7_amended (env : String → Option String) (mend : Mend) (i : Nat) (line : String)
    (nm : String) (recipe : Recipe) (template : String)
    (hline : mend.steps.get? i = some line)
    (hmatch : mend.recipes.filter
      (fun p => p.1 == (split_whitespace (trimStr line)).headD "") = [(nm, recipe)])
    (htemplate : recipe.commit_template = some template)
    (hlen : (split_whitespace (trimStr line)).length ≤ 32767) :
    ((create_run_status_from_mend env mend).get? i).map (fun r => r.commit_msg) =
      some (expandEnv (specCommitContext (split_whitespace (trimStr line)) env) template) := by
  unfold create_run_status_from_mend
  rw [List.get?_map, hline]
  simp only [Option.map_some']
  rw [hmatch]
  simp [render_commit_message, htemplate]
  exact expandEnv_congr _ _ (renderContext_eq_spec _ env hlen) template

def w7recipe : Recipe :=
  { run := "rename-cli $1 $2", commit_template := some "r - Rename $1 to $2",
    tag := none, tags := [] }

def w7mend : Mend :=
  { recipes := [("rename", w7recipe)], hooks := [], steps := ["rename old new"] }

/-- C7 witness: the repo's own commit-template example renders with positional
    arguments substituted. -/
theorem C7_amended_witness :
    ((create_run_status_from_mend env0 w7mend).get? 0).map (fun r => r.commit_msg) =
      some "r - Rename old to new" :=
  (C7_amended env0 w7mend 0 "rename old new" "rename" w7recipe "r - Rename $1 to $2"
    rfl (by decide) rfl (by decide)).trans (by decide)

/- C7 counterexample development: a step line with 32769 whitespace tokens makes
   `args.len() as i16` wrap to -32767, so even `$1` is not substituted. -/

/-- Characters of the step line `"r x x ... x"` with 32768 `"x"` tokens after
    the recipe-name token. -/
def bigChars : List Char := 'r' :: (List.replicate 32768 [' ', 'x']).flatten

def bigLine : String := String.mk bigChars

def c7recipe : Recipe :=
  { run := "", commit_template := some "$1", tag := none, tags := [] }

def c7mend : Mend := { recipes := [("r", c7recipe)], hooks := [], steps := [bigLine] }

theorem bigChars_eq :
    bigChars = 'r' :: ((List.replicate 32767 [' ', 'x']).flatten ++ [' ', 'x']) := by
  unfold bigChars
  rw [show (32768 : Nat) = 32767 + 1 from rfl, List.replicate_succ', List.flatten_append]
  simp only [List.flatten_cons, List.flatten_nil, List.append_nil]

theorem bigChars_reverse :
    bigChars.reverse = 'x' :: (' ' :: ((List.replicate 32767 [' ', 'x']).flatten.reverse ++ ['r'])) := by
  rw [bigChars_eq]
  simp only [List.reverse_cons, List.reverse_append, List.reverse_nil,
    List.nil_append, List.cons_append, List.append_assoc]

theorem trim_big : trimStr bigLine = bigLine := by
  show String.mk (((bigChars.dropWhile Char.isWhitespace).reverse.dropWhile
    Char.isWhitespace).reverse) = String.mk bigChars
  rw [show bigChars.dropWhile Char.isWhitespace = bigChars by
    unfold bigChars
    rw [List.dropWhile_cons_of_neg (by decide)]]
  rw [show bigChars.reverse.dropWhile Char.isWhitespace = bigChars.reverse by
    rw [bigChars_reverse]
    rw [List.dropWhile_cons_of_neg (by decide)]]
  rw [List.reverse_reverse]

theorem splitWsAux_replicate :
    ∀ (n : Nat) (acc : List Char), acc ≠ [] →
      splitWsAux ((List.replicate n [' ', 'x']).flatten) acc =
        String.mk acc.reverse :: List.replicate n "x" := by
  intro n
  induction n with
  | zero =>
    intro acc hacc
    cases acc with
    | nil => exact absurd rfl hacc
    | cons a as =>
      simp [splitWsAux]
  | succ n ih =>
    intro acc hacc
    rw [List.replicate_succ, List.flatten_cons]
    simp only [List.cons_append, List.nil_append]
    cases acc with
    | nil => exact absurd rfl hacc
    | cons a as =>
      rw [splitWsAux]
      simp only [show Char.isWhitespace ' ' = true from rfl, if_true,
        show (a :: as).isEmpty = false from rfl, if_false]
      rw [splitWsAux]
      simp only [show Char.isWhitespace 'x' = false from rfl, if_false]
      rw [ih ['x'] (by simp)]
      rw [List.replicate_succ]
      rfl

theorem split_big : split_whitespace bigLine = "r" :: List.replicate 32768 "x" := by
  show splitWsAux bigChars [] = _
  unfold bigChars
  rw [splitWsAux]
  simp only [show Char.isWhitespace 'r' = false from rfl, if_false]
  rw [splitWsAux_replicate 32768 ['r'] (by simp)]
  rfl

theorem renderContext_big_one :
    renderContext ("r" :: List.replicate 32768 "x") env0 "1" = none := by
  have hlen : ("r" :: List.replicate 32768 "x").length = 32769 := by
    rw [List.length_cons, List.length_replicate]
  have hwrap : wrap16 32769 = -32767 := by decide
  have hcond : ¬ ((1 : Int) ≤ 1 ∧ (1 : Int) < -32767) := by decide
  unfold renderContext
  rw [show parseI16 "1" = some 1 from by decide]
  show (if (1 : Int) ≤ 1 ∧ (1 : Int) < wrap16 ("r" :: List.replicate 32768 "x").length then
      match ("r" :: List.replicate 32768 "x").get? (1 : Int).toNat with
      | some found_arg => some found_arg
      | none => env0 "1"
    else env0 "1") = none
  rw [hlen, hwrap, if_neg hcond]
  rfl

theorem expand_dollar_one (ctx : String → Option String) (h : ctx "1" = none) :
    expandEnv ctx "$1" = "$1" := by
  have h2 : ctx (String.mk ['1']) = none := h
  show String.mk (expandAux ctx 2 ['$', '1']) = "$1"
  rw [show expandAux ctx 2 ['$', '1'] =
      (match ctx (String.mk ['1']) with
       | some v => v.data ++ expandAux ctx 1 []
       | none => '$' :: (['1'] ++ expandAux ctx 1 [])) from rfl, h2]
  rfl

theorem render_big :
    render_commit_message env0 (trimStr bigLine)
      (c7mend.recipes.filter
        (fun p => p.1 == (split_whitespace (trimStr bigLine)).headD "")) = "$1" := by
  rw [trim_big]
  have hfilter : c7mend.recipes.filter
      (fun p => p.1 == (split_whitespace bigLine).headD "") = [("r", c7recipe)] := by
    rw [show c7mend.recipes = [("r", c7recipe)] from rfl]
    rw [split_big]
    simp only [List.headD_cons, List.filter_cons]
    rw [show (("r", c7recipe).1 == "r") = true from rfl]
    rfl
  unfold render_commit_message
  rw [hfilter, split_big]
  simp only [List.head?_cons, show c7recipe.commit_template = some "$1" from rfl]
  exact expand_dollar_one _ renderContext_big_one

/-- C7: counterexample.  For the recipe `"r"` with commit template `"$1"` and a
    step line of 32769 whitespace tokens (`"r"` then 32768 `"x"`), the code casts
    the token count to i16 (wrapping to -32767), so `$1` is not replaced by token
    1 (`"x"`) as the claim requires: the rendered commit message stays `"$1"`. -/
theorem C7_counterexample :
    ((create_run_status_from_mend env0 c7mend).map (fun r => r.commit_msg) = ["$1"]) ∧
      ((split_whitespace (trimStr bigLine)).get? 1 = some "x") ∧
      ("$1" : String) ≠ "x" := by
  refine ⟨?_, ?_, by decide⟩
  · unfold create_run_status_from_mend
    rw [show c7mend.steps = [bigLine] from rfl]
    simp only [List.map_cons, List.map_nil, List.cons.injEq, and_true]
    exact render_big
  · rw [trim_big, split_big]
    rw [show (32768 : Nat) = 32767 + 1 from rfl, List.replicate_succ]
    rfl

def c5req : StepRequest := { run := "s5", run_resolved := ["ok1"], commit_msg := "m5" }

def c5repo : RepoModel := { commitResult := .ok, shaResult := none }

/-- C5: counterexample.  With one succeeding script and a succeeding commit but a
    failing revision lookup, the step ends `Done` with the revision unset: the
    claim's "revision is set if and only if the commit succeeded" fails. -/
theorem C5_counterexample :
    ((run_step c5repo c4exec 0 c5req freshStepResponse).1.status = EStatus.Done) ∧
      ((run_step c5repo c4exec 0 c5req freshStepResponse).1.sha = none) ∧
      c5repo.commitResult = CommitResult.ok := by
  decide
